import Mathlib

/-!
# Verification of the vacation-manager core logic

Shallow embedding of the decision logic of `src/app.py` (a Streamlit
vacation-management app backed by CSV files in a GitHub repository):

* the submission-time eligibility checks (daily headcount cap and pairwise
  exclusion constraints), lines 160-204 of `app.py`;
* the persistence step of a submission (lines 206-234);
* the remaining-leave computation (lines 133-143);
* the approve/reject handlers (lines 316-355);
* the exclusion-constraint add handler (lines 416-426).

Dates are modelled as integers (civil day numbers); `pd.date_range(s, t)`
becomes the inclusive list of integers from `s` to `t`.  Tabular pandas
data becomes lists of structures; row order and row indices are preserved
exactly as `pd.concat(..., ignore_index=True)` and `df.loc[i]` do.
-/

/-- Status of a vacation request; the CSV stores 대기/승인/반려
    (pending/approved/rejected). -/
inductive Status where
  | pending
  | approved
  | rejected
deriving DecidableEq, Repr

/-- Leave type; the CSV stores 연차/반차/병가/기타
    (full-day/half-day/sick/other). -/
inductive LeaveType where
  | fullDay
  | halfDay
  | sick
  | other
deriving DecidableEq, Repr

/-- One row of `vacations.csv`. -/
structure VacationRequest where
  employee_name : String
  start_date : Int
  end_date : Int
  leave_type : LeaveType
  status : Status
  request_date : Int
deriving DecidableEq, Repr

/-- One row of `constraints.csv`: an (ordered, as stored) pair of employee
    names that may not vacation simultaneously. -/
structure ExclusionConstraint where
  employee_name_1 : String
  employee_name_2 : String
deriving DecidableEq, Repr

/-- One row of `employees.csv`. -/
structure Employee where
  employee_name : String
  total_leave_days : Int
deriving DecidableEq, Repr

/-- `pd.date_range(s, t)`: the inclusive ascending day list, written with an
    explicit fuel argument (`fuel = t - s`). -/
def dateRangeAux : Nat → Int → List Int
  | 0, s => [s]
  | n + 1, s => s :: dateRangeAux n (s + 1)

/-- `pd.date_range(start_date, end_date)`, empty when `s > t`. -/
def dateRange (s t : Int) : List Int :=
  if s ≤ t then dateRangeAux (t - s).toNat s else []

/-- `app.py` lines 170-174 / 185-189: the rows of `vacations_df` with
    `start_date <= d`, `end_date >= d` and `status == '승인'`. -/
def approvedOn (rs : List VacationRequest) (d : Int) : List VacationRequest :=
  rs.filter (fun r =>
    (decide (r.start_date ≤ d) && decide (d ≤ r.end_date)) && r.status == Status.approved)

/-- `app.py` line 189: the employee names of the approved rows covering `d`. -/
def approvedNamesOn (rs : List VacationRequest) (d : Int) : List String :=
  (approvedOn rs d).map (·.employee_name)

/-- `app.py` lines 191-194: constraint rows naming the submitting employee in
    either column. -/
def userConstraints (cs : List ExclusionConstraint) (e : String) : List ExclusionConstraint :=
  cs.filter (fun c => c.employee_name_1 == e || c.employee_name_2 == e)

/-- `app.py` line 196: the other member of a constraint row. -/
def partnerOf (c : ExclusionConstraint) (e : String) : String :=
  if c.employee_name_1 == e then c.employee_name_2 else c.employee_name_1

/-- `app.py` lines 195-200 for a single day: the first constraint row (in
    stored order) whose partner is approved on `d`, mapped to that partner. -/
def conflictAt (rs : List VacationRequest) (cs : List ExclusionConstraint)
    (e : String) (d : Int) : Option String :=
  ((userConstraints cs e).find?
      (fun c => (approvedNamesOn rs d).contains (partnerOf c e))).map
    (fun c => partnerOf c e)

/-- `app.py` lines 168-178: the first day of the range (in increasing order)
    whose approved headcount reaches the daily limit. -/
def findLimitDay (rs : List VacationRequest) (limit : Nat) (days : List Int) : Option Int :=
  days.find? (fun d => decide (limit ≤ (approvedOn rs d).length))

/-- `app.py` lines 183-202: scan the days in increasing order; on each day scan
    the submitter's constraints in stored order; stop at the first conflict. -/
def findConflict (rs : List VacationRequest) (cs : List ExclusionConstraint)
    (e : String) : List Int → Option (String × Int)
  | [] => none
  | d :: ds =>
    match conflictAt rs cs e d with
    | some p => some (p, d)
    | none => findConflict rs cs e ds

/-- Outcome of the submission-time validation in `app.py` lines 160-204. -/
inductive ValidationResult where
  | ok
  | startAfterEnd
  | dailyLimit (d : Int)
  | conflict (partner : String) (d : Int)
deriving DecidableEq, Repr

/-- The validation of `vacation_request_form` (`app.py` lines 163-204): the
    start-after-end guard, then the daily-limit loop over the whole range,
    then (only if no day hit the limit) the exclusion-conflict loop over the
    whole range. -/
def validate (rs : List VacationRequest) (cs : List ExclusionConstraint)
    (limit : Nat) (e : String) (s t : Int) : ValidationResult :=
  if t < s then .startAfterEnd
  else
    match findLimitDay rs limit (dateRange s t) with
    | some d => .dailyLimit d
    | none =>
      match findConflict rs cs e (dateRange s t) with
      | some (p, d) => .conflict p d
      | none => .ok

/-- The claim's wording of the algorithm: enumerate the days once and, per
    day, run the daily-limit check and then the exclusion check before moving
    to the next day (interleaved single pass). -/
def validateInterleaved (rs : List VacationRequest) (cs : List ExclusionConstraint)
    (limit : Nat) (e : String) : List Int → ValidationResult
  | [] => .ok
  | d :: ds =>
    if limit ≤ (approvedOn rs d).length then .dailyLimit d
    else
      match conflictAt rs cs e d with
      | some p => .conflict p d
      | none => validateInterleaved rs cs limit e ds

/-- The claim's wording of `validate` (C1): per-day interleaving of the two
    checks, to be compared against the source's two-phase `validate`. -/
def validateSpecC1 (rs : List VacationRequest) (cs : List ExclusionConstraint)
    (limit : Nat) (e : String) (s t : Int) : ValidationResult :=
  if t < s then .startAfterEnd
  else validateInterleaved rs cs limit e (dateRange s t)

/-- `app.py` lines 207-214: the appended row (`status = '대기'`,
    `request_date = datetime.now()`). -/
def mkRequest (e : String) (s t : Int) (lt : LeaveType) (now : Int) : VacationRequest :=
  { employee_name := e
    start_date := s
    end_date := t
    leave_type := lt
    status := .pending
    request_date := now }

/-- A store mutation issued by the app: a conditional update carrying the
    version tag (`sha`) of a read, or an unconditional create. -/
inductive WriteAction where
  | update (rows : List VacationRequest) (tag : String)
  | create (rows : List VacationRequest)
deriving DecidableEq, Repr

/-- `app.py` lines 216-234: re-read `vacations.csv` for its `sha`; if the file
    exists, write `concat(vacations_df, new_request)` — the in-memory snapshot
    plus the new row — under that `sha`; otherwise create the file with just
    the new row.  `freshRead` is the content/tag pair of that final read. -/
def submitPersist (snapshot : List VacationRequest)
    (freshRead : Option (List VacationRequest × String))
    (e : String) (s t : Int) (lt : LeaveType) (now : Int) : WriteAction :=
  match freshRead with
  | some (_, sha) => .update (snapshot ++ [mkRequest e s t lt now]) sha
  | none => .create [mkRequest e s t lt now]

/-- Result of a submission attempt: rejected by validation (no store traffic),
    or a persistence action. -/
inductive SubmitResult where
  | rejected (r : ValidationResult)
  | persisted (w : WriteAction)
deriving DecidableEq, Repr

/-- The whole `vacation_request_form` handler (`app.py` lines 160-234):
    validation first; any failure stops before any store call; on success the
    persistence step runs. -/
def submit (snapshot : List VacationRequest) (cs : List ExclusionConstraint)
    (limit : Nat) (freshRead : Option (List VacationRequest × String))
    (e : String) (s t : Int) (lt : LeaveType) (now : Int) : SubmitResult :=
  match validate snapshot cs limit e s t with
  | .ok => .persisted (submitPersist snapshot freshRead e s t lt now)
  | r => .rejected r

/-- `app.py` lines 135-141: the rows counted against the annual balance
    (`status == '승인'` and `leave_type == '연차'` for the selected employee). -/
def usedLeaveRows (rs : List VacationRequest) (e : String) : List VacationRequest :=
  rs.filter (fun r =>
    (r.employee_name == e && r.status == Status.approved) && r.leave_type == LeaveType.fullDay)

/-- `app.py` line 140: `(end - start).dt.days.sum() + len(used_leave_df)`. -/
def usedDays (rs : List VacationRequest) (e : String) : Int :=
  ((usedLeaveRows rs e).map (fun r => r.end_date - r.start_date)).sum
    + (usedLeaveRows rs e).length

/-- `app.py` lines 133-141: `total_leave_days` of the first employee row with
    the selected name, minus the used days; `none` when no such employee. -/
def remainingDays (emps : List Employee) (rs : List VacationRequest)
    (e : String) : Option Int :=
  (emps.find? (fun emp => emp.employee_name == e)).map
    (fun emp => emp.total_leave_days - usedDays rs e)

/-- `{ r with status := st }`, as done by `vacations_df.loc[index, 'status'] = ...`
    (`app.py` lines 334 and 346): every other field of the row is kept. -/
def setStatus (r : VacationRequest) (st : Status) : VacationRequest :=
  { r with status := st }

/-- The in-memory snapshot the app operates on: the three tables that the
    submit / approve / reject handlers read and write. -/
structure SystemState where
  vacations : List VacationRequest
  constraints : List ExclusionConstraint
  daily_limit : Nat
deriving DecidableEq, Repr

/-- One user-initiated mutation, as implemented by `app.py`:

* `submitStep` — the `vacation_request_form` handler: requires the validation
  of lines 160-204 to pass and appends one pending row (lines 206-224);
* `decideStep` — the 승인/반려 buttons (lines 316-355): offered only for rows
  whose status is `대기` (the `pending_requests` filter of line 320), and sets
  exactly that row's status to approved or rejected. -/
inductive Step : SystemState → SystemState → Prop
  | submitStep {σ : SystemState} (e : String) (s t : Int) (lt : LeaveType) (now : Int)
      (h : validate σ.vacations σ.constraints σ.daily_limit e s t = .ok) :
      Step σ ⟨σ.vacations ++ [mkRequest e s t lt now], σ.constraints, σ.daily_limit⟩
  | decideStep {σ : SystemState} (i : Nat) (b : Bool) (h : i < σ.vacations.length)
      (hp : (σ.vacations.get ⟨i, h⟩).status = .pending) :
      Step σ ⟨σ.vacations.set i
               (setStatus (σ.vacations.get ⟨i, h⟩)
                 (if b then .approved else .rejected)),
             σ.constraints, σ.daily_limit⟩

/-- Reflexive-transitive closure of `Step`: the states reachable from `σ` by
    submissions and approve/reject decisions. -/
inductive Reachable : SystemState → SystemState → Prop
  | refl (σ : SystemState) : Reachable σ σ
  | tail {σ τ υ : SystemState} : Reachable σ τ → Step τ υ → Reachable σ υ

/-- `pandas.DataFrame.drop_duplicates()` on the constraint table: keep the
    first occurrence of each exact (ordered) row. -/
def dropDuplicatesAux (seen : List ExclusionConstraint) :
    List ExclusionConstraint → List ExclusionConstraint
  | [] => []
  | c :: rest =>
    if c ∈ seen then dropDuplicatesAux seen rest
    else c :: dropDuplicatesAux (c :: seen) rest

/-- `drop_duplicates()` with default arguments (keep='first', all columns). -/
def dropDuplicates (l : List ExclusionConstraint) : List ExclusionConstraint :=
  dropDuplicatesAux [] l

/-- `app.py` lines 416-418: the constraint-add handler fires only when
    `emp1 != emp2`; the stored table becomes
    `concat(constraints_df, new_constraint).drop_duplicates()`. -/
def addConstraint (cs : List ExclusionConstraint) (e1 e2 : String) :
    List ExclusionConstraint :=
  if e1 ≠ e2 then dropDuplicates (cs ++ [⟨e1, e2⟩]) else cs

/-- Two constraint rows name the same unordered pair of employees. -/
def sameUnorderedPair (c c' : ExclusionConstraint) : Prop :=
  (c.employee_name_1 = c'.employee_name_1 ∧ c.employee_name_2 = c'.employee_name_2)
    ∨ (c.employee_name_1 = c'.employee_name_2 ∧ c.employee_name_2 = c'.employee_name_1)

instance (c c' : ExclusionConstraint) : Decidable (sameUnorderedPair c c') := by
  unfold sameUnorderedPair
  infer_instance

/-- Sanity: the worked example of the spec (limit 2, A and B approved
    Jan 10-12 as days 10-12, C submits days 11-13). -/
example :
    validate
      [⟨"A", 10, 12, .fullDay, .approved, 0⟩, ⟨"B", 10, 12, .fullDay, .approved, 0⟩]
      [] 2 "C" 11 13 = .dailyLimit 11 := by decide

example :
    validate [⟨"A", 5, 6, .fullDay, .approved, 0⟩] [⟨"A", "B"⟩] 5 "B" 6 7
      = .conflict "A" 6 := by decide

example : validate [] [] 5 "C" 3 1 = .startAfterEnd := by decide

example : validate [] [] 5 "C" 1 3 = .ok := by decide

/-! ## Helper lemmas: day enumeration and first-match searches -/

lemma mem_dateRangeAux {n : Nat} {s d : Int} :
    d ∈ dateRangeAux n s ↔ s ≤ d ∧ d ≤ s + n := by
  induction n generalizing s with
  | zero => simp [dateRangeAux]; omega
  | succ n ih =>
    simp only [dateRangeAux, List.mem_cons, ih]
    constructor
    · rintro (rfl | ⟨h1, h2⟩) <;> constructor <;> push_cast at * <;> omega
    · rintro ⟨h1, h2⟩
      by_cases hd : d = s
      · exact Or.inl hd
      · right; constructor <;> push_cast at * <;> omega

lemma find?_dateRangeAux_eq_some {p : Int → Bool} {n : Nat} {s d : Int} :
    (dateRangeAux n s).find? p = some d ↔
      s ≤ d ∧ d ≤ s + n ∧ p d = true ∧ ∀ d', s ≤ d' → d' < d → p d' = false := by
  induction n generalizing s with
  | zero =>
    simp only [dateRangeAux]
    cases hp : p s with
    | true =>
      simp only [List.find?, hp, Option.some.injEq]
      constructor
      · rintro rfl
        refine ⟨le_refl s, by omega, hp, fun d' h1 h2 => absurd (lt_of_le_of_lt h1 h2) (lt_irrefl s)⟩
      · rintro ⟨h1, h2, _, _⟩
        omega
    | false =>
      simp only [List.find?, hp]
      constructor
      · intro h; cases h
      · rintro ⟨h1, h2, h3, _⟩
        have : d = s := by omega
        subst this
        rw [hp] at h3; cases h3
  | succ n ih =>
    simp only [dateRangeAux]
    cases hp : p s with
    | true =>
      simp only [List.find?, hp, Option.some.injEq]
      constructor
      · rintro rfl
        exact ⟨le_refl s, by push_cast; omega, hp,
          fun d' h1 h2 => absurd (lt_of_le_of_lt h1 h2) (lt_irrefl s)⟩
      · rintro ⟨h1, h2, h3, h4⟩
        by_cases hd : d = s
        · exact hd.symm
        · have := h4 s (le_refl s) (by omega)
          rw [hp] at this; cases this
    | false =>
      simp only [List.find?, hp, ih]
      constructor
      · rintro ⟨h1, h2, h3, h4⟩
        refine ⟨by omega, by push_cast at *; omega, h3, fun d' h5 h6 => ?_⟩
        by_cases hd : d' = s
        · subst hd; exact hp
        · exact h4 d' (by omega) h6
      · rintro ⟨h1, h2, h3, h4⟩
        have hds : d ≠ s := by
          intro hd; subst hd; rw [hp] at h3; cases h3
        refine ⟨by omega, by push_cast at *; omega, h3, fun d' h5 h6 => h4 d' (by omega) h6⟩

lemma find?_dateRangeAux_eq_none {p : Int → Bool} {n : Nat} {s : Int} :
    (dateRangeAux n s).find? p = none ↔
      ∀ d, s ≤ d → d ≤ s + n → p d = false := by
  rw [List.find?_eq_none]
  constructor
  · intro h d h1 h2
    have := h d (mem_dateRangeAux.mpr ⟨h1, h2⟩)
    simpa using this
  · intro h x hx
    have := h x (mem_dateRangeAux.mp hx).1 (mem_dateRangeAux.mp hx).2
    simp [this]

lemma findConflict_dateRangeAux_eq_some {rs : List VacationRequest}
    {cs : List ExclusionConstraint} {e : String} {n : Nat} {s d : Int} {p : String} :
    findConflict rs cs e (dateRangeAux n s) = some (p, d) ↔
      s ≤ d ∧ d ≤ s + n ∧ conflictAt rs cs e d = some p ∧
        ∀ d', s ≤ d' → d' < d → conflictAt rs cs e d' = none := by
  induction n generalizing s with
  | zero =>
    simp only [dateRangeAux]
    cases hc : conflictAt rs cs e s with
    | none =>
      simp only [findConflict, hc]
      constructor
      · intro h; cases h
      · rintro ⟨h1, h2, h3, _⟩
        have : d = s := by omega
        subst this
        rw [hc] at h3; cases h3
    | some q =>
      simp only [findConflict, hc, Option.some.injEq, Prod.mk.injEq]
      constructor
      · rintro ⟨rfl, rfl⟩
        exact ⟨le_refl s, by omega, hc,
          fun d' h1 h2 => absurd (lt_of_le_of_lt h1 h2) (lt_irrefl s)⟩
      · rintro ⟨h1, h2, h3, _⟩
        have : d = s := by omega
        subst this
        rw [hc] at h3
        exact ⟨Option.some.injEq _ _ ▸ h3, rfl⟩
  | succ n ih =>
    simp only [dateRangeAux]
    cases hc : conflictAt rs cs e s with
    | none =>
      simp only [findConflict, hc, ih]
      constructor
      · rintro ⟨h1, h2, h3, h4⟩
        refine ⟨by omega, by push_cast at *; omega, h3, fun d' h5 h6 => ?_⟩
        by_cases hd : d' = s
        · subst hd; exact hc
        · exact h4 d' (by omega) h6
      · rintro ⟨h1, h2, h3, h4⟩
        have hds : d ≠ s := by
          intro hd; subst hd; rw [hc] at h3; cases h3
        refine ⟨by omega, by push_cast at *; omega, h3, fun d' h5 h6 => h4 d' (by omega) h6⟩
    | some q =>
      simp only [findConflict, hc, Option.some.injEq, Prod.mk.injEq]
      constructor
      · rintro ⟨rfl, rfl⟩
        exact ⟨le_refl s, by push_cast; omega, hc,
          fun d' h1 h2 => absurd (lt_of_le_of_lt h1 h2) (lt_irrefl s)⟩
      · rintro ⟨h1, h2, h3, h4⟩
        by_cases hd : d = s
        · subst hd
          rw [hc] at h3
          exact ⟨Option.some.injEq _ _ ▸ h3, rfl⟩
        · have := h4 s (le_refl s) (by omega)
          rw [hc] at this; cases this

lemma findConflict_dateRangeAux_eq_none {rs : List VacationRequest}
    {cs : List ExclusionConstraint} {e : String} {n : Nat} {s : Int} :
    findConflict rs cs e (dateRangeAux n s) = none ↔
      ∀ d, s ≤ d → d ≤ s + n → conflictAt rs cs e d = none := by
  induction n generalizing s with
  | zero =>
    simp only [dateRangeAux]
    cases hc : conflictAt rs cs e s with
    | none =>
      simp only [findConflict, hc, true_iff]
      intro d h1 h2
      have : d = s := by omega
      subst this; exact hc
    | some q =>
      simp only [findConflict, hc]
      constructor
      · intro h; cases h
      · intro h
        have := h s (le_refl s) (by omega)
        rw [hc] at this; cases this
  | succ n ih =>
    simp only [dateRangeAux]
    cases hc : conflictAt rs cs e s with
    | none =>
      simp only [findConflict, hc, ih]
      constructor
      · intro h d h1 h2
        by_cases hd : d = s
        · subst hd; exact hc
        · exact h d (by omega) (by push_cast at *; omega)
      · intro h d h1 h2
        exact h d (by omega) (by push_cast at *; omega)
    | some q =>
      simp only [findConflict, hc]
      constructor
      · intro h; cases h
      · intro h
        have := h s (le_refl s) (by push_cast; omega)
        rw [hc] at this; cases this

lemma conflictAt_eq_none_iff {rs : List VacationRequest}
    {cs : List ExclusionConstraint} {e : String} {d : Int} :
    conflictAt rs cs e d = none ↔
      ∀ c ∈ userConstraints cs e, partnerOf c e ∉ approvedNamesOn rs d := by
  unfold conflictAt
  rw [Option.map_eq_none', List.find?_eq_none]
  constructor
  · intro h c hc
    have := h c hc
    simpa using this
  · intro h c hc
    simp [h c hc]

lemma conflictAt_eq_some {rs : List VacationRequest}
    {cs : List ExclusionConstraint} {e : String} {d : Int} {p : String}
    (h : conflictAt rs cs e d = some p) :
    p ∈ approvedNamesOn rs d ∧ ∃ c ∈ userConstraints cs e, partnerOf c e = p := by
  unfold conflictAt at h
  rw [Option.map_eq_some'] at h
  obtain ⟨c, hc, rfl⟩ := h
  have h1 := List.find?_some hc
  have h2 := List.mem_of_find?_eq_some hc
  simp only [List.contains_iff_exists_mem_beq] at h1
  refine ⟨?_, c, h2, rfl⟩
  obtain ⟨x, hx, hbeq⟩ := h1
  have : partnerOf c e = x := beq_iff_eq.mp hbeq
  rw [this]; exact hx

lemma conflictAt_eq_some_iff {rs : List VacationRequest}
    {cs : List ExclusionConstraint} {e : String} {d : Int} {p : String} :
    conflictAt rs cs e d = some p ↔
      ∃ l1 c l2, userConstraints cs e = l1 ++ c :: l2 ∧ partnerOf c e = p ∧
        p ∈ approvedNamesOn rs d ∧
        ∀ c' ∈ l1, partnerOf c' e ∉ approvedNamesOn rs d := by
  unfold conflictAt
  rw [Option.map_eq_some']
  constructor
  · rintro ⟨c, hc, rfl⟩
    rw [List.find?_eq_some] at hc
    obtain ⟨hpa, l1, l2, hsplit, hprev⟩ := hc
    refine ⟨l1, c, l2, hsplit, rfl, by simpa using hpa, fun c' hc' => ?_⟩
    have := hprev c' hc'
    simpa using this
  · rintro ⟨l1, c, l2, hsplit, rfl, hmem, hprev⟩
    refine ⟨c, ?_, rfl⟩
    rw [List.find?_eq_some]
    exact ⟨by simpa using hmem, l1, l2, hsplit,
      fun c' hc' => by simpa using hprev c' hc'⟩

lemma validate_eq_match {rs : List VacationRequest} {cs : List ExclusionConstraint}
    {limit : Nat} {e : String} {s t : Int} (hst : s ≤ t) :
    validate rs cs limit e s t =
      match findLimitDay rs limit (dateRangeAux (t - s).toNat s) with
      | some d => .dailyLimit d
      | none =>
        match findConflict rs cs e (dateRangeAux (t - s).toNat s) with
        | some (p, d) => .conflict p d
        | none => .ok := by
  unfold validate dateRange
  rw [if_neg (not_lt.mpr hst), if_pos hst]

lemma validate_ok_iff {rs : List VacationRequest} {cs : List ExclusionConstraint}
    {limit : Nat} {e : String} {s t : Int} (hst : s ≤ t) :
    validate rs cs limit e s t = .ok ↔
      ∀ d, s ≤ d → d ≤ t → (approvedOn rs d).length < limit ∧
        ∀ c ∈ userConstraints cs e, partnerOf c e ∉ approvedNamesOn rs d := by
  rw [validate_eq_match hst]
  cases h1 : findLimitDay rs limit (dateRangeAux (t - s).toNat s) with
  | some d =>
    constructor
    · intro h; exact ValidationResult.noConfusion h
    · intro h
      obtain ⟨hd1, hd2, hd3, _⟩ := find?_dateRangeAux_eq_some.mp h1
      have hlt := (h d hd1 (by omega)).1
      rw [decide_eq_true_eq] at hd3
      omega
  | none =>
    cases h2 : findConflict rs cs e (dateRangeAux (t - s).toNat s) with
    | some pd =>
      obtain ⟨p, d⟩ := pd
      constructor
      · intro h; exact ValidationResult.noConfusion h
      · intro h
        obtain ⟨hd1, hd2, hd3, _⟩ := findConflict_dateRangeAux_eq_some.mp h2
        obtain ⟨hp1, c, hc1, hc2⟩ := conflictAt_eq_some hd3
        exact absurd hp1 (hc2 ▸ (h d hd1 (by omega)).2 c hc1)
    | none =>
      constructor
      · intro _ d hd1 hd2
        have ha := find?_dateRangeAux_eq_none.mp h1 d hd1 (by omega)
        have hb := findConflict_dateRangeAux_eq_none.mp h2 d hd1 (by omega)
        rw [decide_eq_false_iff_not, not_le] at ha
        exact ⟨ha, conflictAt_eq_none_iff.mp hb⟩
      · intro _; rfl

lemma validate_dailyLimit_iff {rs : List VacationRequest} {cs : List ExclusionConstraint}
    {limit : Nat} {e : String} {s t d0 : Int} (hst : s ≤ t) :
    validate rs cs limit e s t = .dailyLimit d0 ↔
      s ≤ d0 ∧ d0 ≤ t ∧ limit ≤ (approvedOn rs d0).length ∧
        ∀ d', s ≤ d' → d' < d0 → (approvedOn rs d').length < limit := by
  rw [validate_eq_match hst]
  have hiff : ∀ d : Int,
      (findLimitDay rs limit (dateRangeAux (t - s).toNat s) = some d ↔
        s ≤ d ∧ d ≤ t ∧ limit ≤ (approvedOn rs d).length ∧
          ∀ d', s ≤ d' → d' < d → (approvedOn rs d').length < limit) := by
    intro d
    unfold findLimitDay
    rw [find?_dateRangeAux_eq_some]
    constructor
    · rintro ⟨ha, hb, hc, hd⟩
      rw [decide_eq_true_eq] at hc
      refine ⟨ha, by omega, hc, fun d' h5 h6 => ?_⟩
      have := hd d' h5 h6
      rw [decide_eq_false_iff_not, not_le] at this
      exact this
    · rintro ⟨ha, hb, hc, hd⟩
      refine ⟨ha, by omega, decide_eq_true_eq.mpr hc, fun d' h5 h6 => ?_⟩
      rw [decide_eq_false_iff_not, not_le]
      exact hd d' h5 h6
  cases h1 : findLimitDay rs limit (dateRangeAux (t - s).toNat s) with
  | some d =>
    constructor
    · intro h
      cases h
      exact (hiff d0).mp h1
    · intro h
      have := ((hiff d0).mpr h).symm.trans h1
      rw [Option.some.injEq] at this
      rw [this]
  | none =>
    cases h2 : findConflict rs cs e (dateRangeAux (t - s).toNat s) with
    | some pd =>
      obtain ⟨p, d⟩ := pd
      constructor
      · intro h; exact ValidationResult.noConfusion h
      · intro h
        have := ((hiff d0).mpr h).symm.trans h1
        exact Option.noConfusion this
    | none =>
      constructor
      · intro h; exact ValidationResult.noConfusion h
      · intro h
        have := ((hiff d0).mpr h).symm.trans h1
        exact Option.noConfusion this

lemma validate_conflict_iff {rs : List VacationRequest} {cs : List ExclusionConstraint}
    {limit : Nat} {e : String} {s t d0 : Int} {p : String} (hst : s ≤ t) :
    validate rs cs limit e s t = .conflict p d0 ↔
      (∀ d, s ≤ d → d ≤ t → (approvedOn rs d).length < limit) ∧
      s ≤ d0 ∧ d0 ≤ t ∧ conflictAt rs cs e d0 = some p ∧
        ∀ d', s ≤ d' → d' < d0 → conflictAt rs cs e d' = none := by
  rw [validate_eq_match hst]
  cases h1 : findLimitDay rs limit (dateRangeAux (t - s).toNat s) with
  | some d =>
    constructor
    · intro h; exact ValidationResult.noConfusion h
    · rintro ⟨h, _⟩
      obtain ⟨hd1, hd2, hd3, _⟩ := find?_dateRangeAux_eq_some.mp h1
      rw [decide_eq_true_eq] at hd3
      have := h d hd1 (by omega)
      omega
  | none =>
    have hnl : ∀ d, s ≤ d → d ≤ t → (approvedOn rs d).length < limit := by
      intro d hd1 hd2
      have := find?_dateRangeAux_eq_none.mp h1 d hd1 (by omega)
      rw [decide_eq_false_iff_not, not_le] at this
      exact this
    cases h2 : findConflict rs cs e (dateRangeAux (t - s).toNat s) with
    | some pd =>
      obtain ⟨q, d⟩ := pd
      obtain ⟨hd1, hd2, hd3, hd4⟩ := findConflict_dateRangeAux_eq_some.mp h2
      constructor
      · intro h
        cases h
        exact ⟨hnl, hd1, by omega, hd3, fun d' h5 h6 => hd4 d' h5 h6⟩
      · rintro ⟨_, he1, he2, he3, he4⟩
        have hdd : d = d0 := by
          rcases lt_trichotomy d d0 with hlt | heq | hgt
          · have := he4 d hd1 hlt
            rw [hd3] at this; exact Option.noConfusion this
          · exact heq
          · have := hd4 d0 he1 hgt
            rw [he3] at this; exact Option.noConfusion this
        subst hdd
        rw [hd3] at he3
        rw [Option.some.injEq] at he3
        rw [he3]
    | none =>
      constructor
      · intro h; exact ValidationResult.noConfusion h
      · rintro ⟨_, he1, he2, he3, _⟩
        have := findConflict_dateRangeAux_eq_none.mp h2 d0 he1 (by omega)
        rw [he3] at this
        exact Option.noConfusion this

/-! ## C1: structure of the validation scan -/

/-- C1 counterexample: with limit 2, the submitter C has an exclusion partner
    B approved on day 0, and two unrelated employees X, Y approved on day 1.
    The claimed interleaved day-then-check order would reject with the
    conflict on day 0 (the earliest offending day), but the code runs the
    daily-limit loop over the whole range first and rejects with the daily
    limit on day 1. -/
theorem validate_interleaving_cex :
    validate
      [⟨"B", 0, 0, .fullDay, .approved, 0⟩,
       ⟨"X", 1, 1, .fullDay, .approved, 0⟩,
       ⟨"Y", 1, 1, .fullDay, .approved, 0⟩]
      [⟨"C", "B"⟩] 2 "C" 0 1 = .dailyLimit 1
    ∧ validateSpecC1
      [⟨"B", 0, 0, .fullDay, .approved, 0⟩,
       ⟨"X", 1, 1, .fullDay, .approved, 0⟩,
       ⟨"Y", 1, 1, .fullDay, .approved, 0⟩]
      [⟨"C", "B"⟩] 2 "C" 0 1 = .conflict "B" 0
    ∧ ValidationResult.dailyLimit 1 ≠ ValidationResult.conflict "B" 0 := by
  refine ⟨by decide, by decide, by decide⟩

/-- **C1** (amended): `validate` runs two sequential phases rather than one
    interleaved day-by-day pass.  Phase one scans every day of the inclusive
    range in increasing order and rejects with "daily limit exceeded on d" on
    the earliest day whose approved headcount reaches the limit, regardless of
    exclusion conflicts on earlier days.  Only when no day reaches the limit
    does phase two scan the days again in increasing order, rejecting with
    "conflicts with p on d" exactly for the earliest day `d` with a
    conflicting partner, `p` being the partner of the first constraint row in
    stored order whose partner is approved on `d`.  The result is Ok iff no
    day of the range triggers either violation. -/
theorem validate_two_phase_characterization
    (rs : List VacationRequest) (cs : List ExclusionConstraint)
    (limit : Nat) (e : String) (s t : Int) (hst : s ≤ t) :
    (validate rs cs limit e s t = .ok ↔
       ∀ d, s ≤ d → d ≤ t → (approvedOn rs d).length < limit ∧
         ∀ c ∈ userConstraints cs e, partnerOf c e ∉ approvedNamesOn rs d)
    ∧ (∀ d0, validate rs cs limit e s t = .dailyLimit d0 ↔
        s ≤ d0 ∧ d0 ≤ t ∧ limit ≤ (approvedOn rs d0).length ∧
          ∀ d', s ≤ d' → d' < d0 → (approvedOn rs d').length < limit)
    ∧ (∀ p d0, validate rs cs limit e s t = .conflict p d0 ↔
        ((∀ d, s ≤ d → d ≤ t → (approvedOn rs d).length < limit) ∧
         s ≤ d0 ∧ d0 ≤ t ∧
         (∃ l1 c l2, userConstraints cs e = l1 ++ c :: l2 ∧ partnerOf c e = p ∧
            p ∈ approvedNamesOn rs d0 ∧
            ∀ c' ∈ l1, partnerOf c' e ∉ approvedNamesOn rs d0) ∧
         ∀ d', s ≤ d' → d' < d0 → ∀ c ∈ userConstraints cs e,
           partnerOf c e ∉ approvedNamesOn rs d')) := by
  refine ⟨validate_ok_iff hst, fun d0 => validate_dailyLimit_iff hst, fun p d0 => ?_⟩
  rw [validate_conflict_iff hst]
  constructor
  · rintro ⟨hnl, h1, h2, hca, hprev⟩
    exact ⟨hnl, h1, h2, conflictAt_eq_some_iff.mp hca,
      fun d' ha hb => conflictAt_eq_none_iff.mp (hprev d' ha hb)⟩
  · rintro ⟨hnl, h1, h2, hsplit, hprev⟩
    exact ⟨hnl, h1, h2, conflictAt_eq_some_iff.mpr hsplit,
      fun d' ha hb => conflictAt_eq_none_iff.mpr (hprev d' ha hb)⟩

/-- Witness for `validate_two_phase_characterization` at the spec's worked
    example (limit 2, A and B approved on days 10-12, C submits days 11-13):
    the hypothesis `11 ≤ 13` is discharged concretely. -/
theorem validate_two_phase_characterization_witness :
    (validate
        [⟨"A", 10, 12, .fullDay, .approved, 0⟩, ⟨"B", 10, 12, .fullDay, .approved, 0⟩]
        [] 2 "C" 11 13 = .ok ↔
       ∀ d, 11 ≤ d → d ≤ 13 →
         (approvedOn
             [⟨"A", 10, 12, .fullDay, .approved, 0⟩, ⟨"B", 10, 12, .fullDay, .approved, 0⟩]
             d).length < 2 ∧
         ∀ c ∈ userConstraints [] "C", partnerOf c "C" ∉
           approvedNamesOn
             [⟨"A", 10, 12, .fullDay, .approved, 0⟩, ⟨"B", 10, 12, .fullDay, .approved, 0⟩] d)
    ∧ (∀ d0, validate
        [⟨"A", 10, 12, .fullDay, .approved, 0⟩, ⟨"B", 10, 12, .fullDay, .approved, 0⟩]
        [] 2 "C" 11 13 = .dailyLimit d0 ↔
        11 ≤ d0 ∧ d0 ≤ 13 ∧
          2 ≤ (approvedOn
             [⟨"A", 10, 12, .fullDay, .approved, 0⟩, ⟨"B", 10, 12, .fullDay, .approved, 0⟩]
             d0).length ∧
          ∀ d', 11 ≤ d' → d' < d0 →
            (approvedOn
               [⟨"A", 10, 12, .fullDay, .approved, 0⟩, ⟨"B", 10, 12, .fullDay, .approved, 0⟩]
               d').length < 2)
    ∧ (∀ p d0, validate
        [⟨"A", 10, 12, .fullDay, .approved, 0⟩, ⟨"B", 10, 12, .fullDay, .approved, 0⟩]
        [] 2 "C" 11 13 = .conflict p d0 ↔
        ((∀ d, 11 ≤ d → d ≤ 13 →
          (approvedOn
             [⟨"A", 10, 12, .fullDay, .approved, 0⟩, ⟨"B", 10, 12, .fullDay, .approved, 0⟩]
             d).length < 2) ∧
        11 ≤ d0 ∧ d0 ≤ 13 ∧
        (∃ l1 c l2, userConstraints [] "C" = l1 ++ c :: l2 ∧ partnerOf c "C" = p ∧
           p ∈ approvedNamesOn
             [⟨"A", 10, 12, .fullDay, .approved, 0⟩, ⟨"B", 10, 12, .fullDay, .approved, 0⟩] d0 ∧
           ∀ c' ∈ l1, partnerOf c' "C" ∉
             approvedNamesOn
               [⟨"A", 10, 12, .fullDay, .approved, 0⟩, ⟨"B", 10, 12, .fullDay, .approved, 0⟩] d0) ∧
        ∀ d', 11 ≤ d' → d' < d0 → ∀ c ∈ userConstraints [] "C",
          partnerOf c "C" ∉
            approvedNamesOn
              [⟨"A", 10, 12, .fullDay, .approved, 0⟩, ⟨"B", 10, 12, .fullDay, .approved, 0⟩] d')) :=
  validate_two_phase_characterization
    [⟨"A", 10, 12, .fullDay, .approved, 0⟩, ⟨"B", 10, 12, .fullDay, .approved, 0⟩]
    [] 2 "C" 11 13 (by decide)

/-! ## C2: the persistence sequence of a successful submission -/

/-- C2 counterexample: the snapshot is empty (loaded before another session
    appended a row), the final read returns one row `rA` under tag "v1".  The
    code writes snapshot + new request — just the new row — under tag "v1",
    not the fresh read's rows plus the new request. -/
theorem submit_writes_snapshot_cex :
    submit [] [] 5 (some ([⟨"A", 0, 0, .fullDay, .approved, 0⟩], "v1"))
        "B" 1 1 .fullDay 7
      = .persisted (.update [mkRequest "B" 1 1 .fullDay 7] "v1")
    ∧ WriteAction.update [mkRequest "B" 1 1 .fullDay 7] "v1"
      ≠ .update (⟨"A", 0, 0, .fullDay, .approved, 0⟩ :: [mkRequest "B" 1 1 .fullDay 7]) "v1" := by
  refine ⟨by decide, by decide⟩

/-- **C2** (amended): a submission that passes validation constructs a request
    with status pending and request_date equal to the current time, obtains
    the store's current version tag by a fresh read, and writes the in-memory
    snapshot (loaded earlier, possibly stale) plus the one new request under
    that tag; the written rows equal the fresh read's rows plus the new
    request exactly when the snapshot and the fresh read agree. -/
theorem submit_persist_snapshot_append
    (snapshot rows : List VacationRequest) (cs : List ExclusionConstraint)
    (limit : Nat) (tag : String) (e : String) (s t : Int) (lt : LeaveType) (now : Int)
    (h : validate snapshot cs limit e s t = .ok) :
    submit snapshot cs limit (some (rows, tag)) e s t lt now
      = .persisted (.update (snapshot ++ [mkRequest e s t lt now]) tag)
    ∧ (mkRequest e s t lt now).status = .pending
    ∧ (mkRequest e s t lt now).request_date = now
    ∧ (snapshot ++ [mkRequest e s t lt now] = rows ++ [mkRequest e s t lt now]
        ↔ snapshot = rows) := by
  refine ⟨?_, rfl, rfl, by simp⟩
  unfold submit
  rw [h]
  rfl

/-- Witness for `submit_persist_snapshot_append`: an empty snapshot passes
    validation and the submission is persisted under the freshly read tag. -/
theorem submit_persist_snapshot_append_witness :
    submit [] [] 5 (some ([], "v0")) "A" 2 3 .fullDay 9
      = .persisted (.update ([] ++ [mkRequest "A" 2 3 .fullDay 9]) "v0")
    ∧ (mkRequest "A" 2 3 .fullDay 9).status = .pending
    ∧ (mkRequest "A" 2 3 .fullDay 9).request_date = 9
    ∧ ([] ++ [mkRequest "A" 2 3 .fullDay 9] = [] ++ [mkRequest "A" 2 3 .fullDay 9]
        ↔ ([] : List VacationRequest) = []) :=
  submit_persist_snapshot_append [] [] [] 5 "v0" "A" 2 3 .fullDay 9 (by decide)

/-! ## C3: de-duplication of exclusion constraints -/

lemma mem_dropDuplicatesAux {seen l : List ExclusionConstraint} {c : ExclusionConstraint} :
    c ∈ dropDuplicatesAux seen l ↔ c ∈ l ∧ c ∉ seen := by
  induction l generalizing seen with
  | nil => simp [dropDuplicatesAux]
  | cons x rest ih =>
    by_cases hx : x ∈ seen
    · rw [dropDuplicatesAux, if_pos hx, ih]
      simp only [List.mem_cons]
      constructor
      · rintro ⟨h1, h2⟩
        exact ⟨Or.inr h1, h2⟩
      · rintro ⟨h1 | h1, h2⟩
        · subst h1; exact absurd hx h2
        · exact ⟨h1, h2⟩
    · rw [dropDuplicatesAux, if_neg hx]
      simp only [List.mem_cons, ih]
      constructor
      · rintro (rfl | ⟨h1, h2⟩)
        · exact ⟨Or.inl rfl, hx⟩
        · exact ⟨Or.inr h1, fun hs => h2 (Or.inr hs)⟩
      · rintro ⟨h1 | h1, h2⟩
        · exact Or.inl h1
        · by_cases hcx : c = x
          · exact Or.inl hcx
          · exact Or.inr ⟨h1, fun hs => hs.elim hcx h2⟩

lemma nodup_dropDuplicatesAux {seen l : List ExclusionConstraint} :
    (dropDuplicatesAux seen l).Nodup := by
  induction l generalizing seen with
  | nil => exact List.nodup_nil
  | cons x rest ih =>
    by_cases hx : x ∈ seen
    · rw [dropDuplicatesAux, if_pos hx]; exact ih
    · rw [dropDuplicatesAux, if_neg hx]
      refine List.Nodup.cons ?_ ih
      intro hmem
      exact (mem_dropDuplicatesAux.mp hmem).2 (List.mem_cons_self x seen)

/-- C3 counterexample: with constraint (A, B) already stored, adding (B, A)
    stores both rows — two rows naming the same unordered pair {A, B} — since
    `drop_duplicates()` compares rows in column order. -/
theorem addConstraint_reversed_pair_cex :
    addConstraint [⟨"A", "B"⟩] "B" "A" = [⟨"A", "B"⟩, ⟨"B", "A"⟩]
    ∧ sameUnorderedPair (⟨"A", "B"⟩ : ExclusionConstraint) ⟨"B", "A"⟩
    ∧ (⟨"A", "B"⟩ : ExclusionConstraint) ≠ ⟨"B", "A"⟩ := by
  refine ⟨by decide, by decide, by decide⟩

/-- **C3** (amended): the constraint-add handler de-duplicates only exact
    ordered rows: the stored collection after an add contains no two equal
    rows and exactly the old rows plus (X, Y); a reversed pair (Y, X) counts
    as a different row and is retained alongside (X, Y). -/
theorem addConstraint_dedup_ordered_rows
    (cs : List ExclusionConstraint) (e1 e2 : String) (h : e1 ≠ e2) :
    (addConstraint cs e1 e2).Nodup
    ∧ (⟨e1, e2⟩ : ExclusionConstraint) ∈ addConstraint cs e1 e2
    ∧ (∀ c : ExclusionConstraint, c ∈ addConstraint cs e1 e2 ↔ c ∈ cs ∨ c = ⟨e1, e2⟩) := by
  unfold addConstraint dropDuplicates
  rw [if_pos h]
  refine ⟨nodup_dropDuplicatesAux, ?_, fun c => ?_⟩
  · rw [mem_dropDuplicatesAux]
    simp
  · rw [mem_dropDuplicatesAux]
    simp

/-- Witness for `addConstraint_dedup_ordered_rows` at a concrete add. -/
theorem addConstraint_dedup_ordered_rows_witness :
    (addConstraint [⟨"A", "B"⟩] "A" "C").Nodup
    ∧ (⟨"A", "C"⟩ : ExclusionConstraint) ∈ addConstraint [⟨"A", "B"⟩] "A" "C"
    ∧ (∀ c : ExclusionConstraint,
        c ∈ addConstraint [⟨"A", "B"⟩] "A" "C" ↔ c ∈ [⟨"A", "B"⟩] ∨ c = ⟨"A", "C"⟩) :=
  addConstraint_dedup_ordered_rows [⟨"A", "B"⟩] "A" "C" (by decide)

/-! ## C5: remaining-leave computation -/

lemma sum_map_sub_add_length (l : List VacationRequest) :
    (l.map (fun r => r.end_date - r.start_date)).sum + (l.length : Int)
      = (l.map (fun r => r.end_date - r.start_date + 1)).sum := by
  induction l with
  | nil => simp
  | cons r rest ih =>
    simp only [List.map_cons, List.sum_cons, List.length_cons]
    push_cast
    omega

lemma usedLeaveRows_eq_claim_filter (rs : List VacationRequest) (e : String) :
    usedLeaveRows rs e = rs.filter (fun r =>
      decide (r.employee_name = e ∧ r.status = Status.approved ∧
        r.leave_type = LeaveType.fullDay)) := by
  unfold usedLeaveRows
  refine List.filter_congr (fun r _ => ?_)
  by_cases h1 : r.employee_name = e <;>
    by_cases h2 : r.status = Status.approved <;>
      by_cases h3 : r.leave_type = LeaveType.fullDay <;>
        simp [h1, h2, h3]

/-- **C5** (confirmed): `remaining_days` is `total_leave_days` of the selected
    employee minus the sum of the inclusive day counts (end − start + 1) of
    that employee's approved, full-day requests; requests of any other leave
    type, status, or employee never change the balance.  The spec's example
    (15 total, one approved full-day request over three days) gives 12. -/
theorem remainingDays_spec (emps : List Employee) (rs : List VacationRequest)
    (e : String) (emp : Employee)
    (h : emps.find? (fun x => x.employee_name == e) = some emp) :
    remainingDays emps rs e
      = some (emp.total_leave_days
          - ((rs.filter (fun r =>
                decide (r.employee_name = e ∧ r.status = Status.approved ∧
                  r.leave_type = LeaveType.fullDay))).map
              (fun r => r.end_date - r.start_date + 1)).sum)
    ∧ (∀ r : VacationRequest,
        r.leave_type ≠ .fullDay ∨ r.status ≠ .approved ∨ r.employee_name ≠ e →
          remainingDays emps (rs ++ [r]) e = remainingDays emps rs e)
    ∧ remainingDays [⟨"E", 15⟩] [⟨"E", 32, 34, .fullDay, .approved, 31⟩] "E"
        = some 12 := by
  refine ⟨?_, ?_, by decide⟩
  · unfold remainingDays
    rw [h]
    unfold Option.map
    rw [← usedLeaveRows_eq_claim_filter, ← sum_map_sub_add_length]
    rfl
  · intro r hr
    unfold remainingDays usedDays usedLeaveRows
    rw [List.filter_append]
    have honly : List.filter (fun r =>
        (r.employee_name == e && r.status == Status.approved)
          && r.leave_type == LeaveType.fullDay) [r] = [] := by
      rw [List.filter_cons_of_neg]
      · rfl
      · rcases hr with hr | hr | hr <;> simp [hr]
    rw [honly, List.append_nil]

/-- Witness for `remainingDays_spec` at the spec's worked example (employee E
    with 15 total days, one approved full-day request over days 32-34). -/
theorem remainingDays_spec_witness :
    remainingDays [⟨"E", 15⟩] [⟨"E", 32, 34, .fullDay, .approved, 31⟩] "E"
      = some ((15 : Int)
          - ((([⟨"E", 32, 34, .fullDay, .approved, 31⟩] : List VacationRequest).filter
               (fun r => decide (r.employee_name = "E" ∧ r.status = Status.approved ∧
                  r.leave_type = LeaveType.fullDay))).map
              (fun r => r.end_date - r.start_date + 1)).sum)
    ∧ (∀ r : VacationRequest,
        r.leave_type ≠ .fullDay ∨ r.status ≠ .approved ∨ r.employee_name ≠ "E" →
          remainingDays [⟨"E", 15⟩] ([⟨"E", 32, 34, .fullDay, .approved, 31⟩] ++ [r]) "E"
            = remainingDays [⟨"E", 15⟩] [⟨"E", 32, 34, .fullDay, .approved, 31⟩] "E")
    ∧ remainingDays [⟨"E", 15⟩] [⟨"E", 32, 34, .fullDay, .approved, 31⟩] "E"
        = some 12 :=
  remainingDays_spec [⟨"E", 15⟩] [⟨"E", 32, 34, .fullDay, .approved, 31⟩] "E"
    ⟨"E", 15⟩ (by decide)

/-! ## C6: validation failures mutate nothing -/

/-- **C6** (confirmed): whenever validation fails (start after end, a daily
    limit reached on some day of the range, or an exclusion conflict on some
    day), the submission handler reports exactly that failure and issues no
    write or create to the store. -/
theorem submit_rejected_no_write (snapshot : List VacationRequest)
    (cs : List ExclusionConstraint) (limit : Nat)
    (freshRead : Option (List VacationRequest × String))
    (e : String) (s t : Int) (lt : LeaveType) (now : Int)
    (h : validate snapshot cs limit e s t ≠ .ok) :
    submit snapshot cs limit freshRead e s t lt now
      = .rejected (validate snapshot cs limit e s t)
    ∧ ∀ w : WriteAction,
        submit snapshot cs limit freshRead e s t lt now ≠ .persisted w := by
  have heq : submit snapshot cs limit freshRead e s t lt now
      = .rejected (validate snapshot cs limit e s t) := by
    unfold submit
    cases hv : validate snapshot cs limit e s t with
    | ok => exact absurd hv h
    | startAfterEnd => rfl
    | dailyLimit d => rfl
    | conflict p d => rfl
  refine ⟨heq, fun w hw => ?_⟩
  rw [heq] at hw
  exact SubmitResult.noConfusion hw

/-- Witness for `submit_rejected_no_write`: a submission whose start date is
    after its end date is rejected and nothing is written. -/
theorem submit_rejected_no_write_witness :
    submit [] [] 5 (some ([], "v0")) "A" 1 0 .fullDay 9
      = .rejected (validate [] [] 5 "A" 1 0)
    ∧ ∀ w : WriteAction, submit [] [] 5 (some ([], "v0")) "A" 1 0 .fullDay 9 ≠ .persisted w :=
  submit_rejected_no_write [] [] 5 (some ([], "v0")) "A" 1 0 .fullDay 9 (by decide)

/-! ## C8: only approved requests are scanned -/

lemma approvedOn_eq_filter_filter (rs : List VacationRequest) (d : Int) :
    approvedOn rs d =
      (rs.filter (fun r => r.status == Status.approved)).filter
        (fun r => decide (r.start_date ≤ d) && decide (d ≤ r.end_date)) := by
  unfold approvedOn
  rw [List.filter_filter]

lemma validate_congr_approved {rs₁ rs₂ : List VacationRequest}
    {cs : List ExclusionConstraint} {limit : Nat} {e : String} {s t : Int}
    (h : rs₁.filter (fun r => r.status == Status.approved)
        = rs₂.filter (fun r => r.status == Status.approved)) :
    validate rs₁ cs limit e s t = validate rs₂ cs limit e s t := by
  have ha : ∀ d, approvedOn rs₁ d = approvedOn rs₂ d := by
    intro d
    rw [approvedOn_eq_filter_filter, approvedOn_eq_filter_filter, h]
  have hn : ∀ d, approvedNamesOn rs₁ d = approvedNamesOn rs₂ d := by
    intro d
    unfold approvedNamesOn
    rw [ha]
  have hc : ∀ d, conflictAt rs₁ cs e d = conflictAt rs₂ cs e d := by
    intro d
    unfold conflictAt
    rw [hn]
  have hf : ∀ days, findConflict rs₁ cs e days = findConflict rs₂ cs e days := by
    intro days
    induction days with
    | nil => rfl
    | cons d ds ih =>
      unfold findConflict
      rw [hc d, ih]
  have hl : ∀ days, findLimitDay rs₁ limit days = findLimitDay rs₂ limit days := by
    intro days
    unfold findLimitDay
    congr 1
    funext d
    rw [ha d]
  unfold validate
  rw [hl, hf]

/-- **C8** (confirmed): both submission-time checks scan only rows with
    status approved — the result of `validate` depends only on the approved
    sub-collection, so inserting (or removing) a pending or rejected request
    anywhere never changes the result of `validate`. -/
theorem validate_ignores_non_approved (rs₁ rs₂ : List VacationRequest)
    (cs : List ExclusionConstraint) (limit : Nat) (e : String) (s t : Int)
    (h : rs₁.filter (fun r => r.status == Status.approved)
        = rs₂.filter (fun r => r.status == Status.approved)) :
    validate rs₁ cs limit e s t = validate rs₂ cs limit e s t
    ∧ ∀ (l1 l2 : List VacationRequest) (r : VacationRequest), r.status ≠ .approved →
        validate (l1 ++ r :: l2) cs limit e s t = validate (l1 ++ l2) cs limit e s t := by
  refine ⟨validate_congr_approved h, fun l1 l2 r hr => ?_⟩
  refine validate_congr_approved ?_
  rw [List.filter_append, List.filter_append, List.filter_cons_of_neg]
  simpa using hr

/-- Witness for `validate_ignores_non_approved`: a pending and a rejected row
    filter away, so validation coincides with the empty collection. -/
theorem validate_ignores_non_approved_witness :
    validate [⟨"A", 0, 9, .fullDay, .pending, 0⟩, ⟨"B", 0, 9, .fullDay, .rejected, 0⟩]
        [⟨"A", "C"⟩] 1 "C" 0 3
      = validate [] [⟨"A", "C"⟩] 1 "C" 0 3
    ∧ ∀ (l1 l2 : List VacationRequest) (r : VacationRequest), r.status ≠ .approved →
        validate (l1 ++ r :: l2) [⟨"A", "C"⟩] 1 "C" 0 3
          = validate (l1 ++ l2) [⟨"A", "C"⟩] 1 "C" 0 3 :=
  validate_ignores_non_approved
    [⟨"A", 0, 9, .fullDay, .pending, 0⟩, ⟨"B", 0, 9, .fullDay, .rejected, 0⟩]
    [] [⟨"A", "C"⟩] 1 "C" 0 3 (by decide)

/-! ## C10: the submitter's own approved requests count toward the cap -/

/-- **C10** (confirmed): the daily-limit filter does not exclude the
    submitting employee: even when every approved request covering day `d`
    belongs to the submitter, a full day rejects the submission with the
    daily-limit violation on `d`. -/
theorem validate_counts_own_requests (rs : List VacationRequest)
    (cs : List ExclusionConstraint) (limit : Nat) (e : String) (s t d : Int)
    (h1 : s ≤ t) (h2 : s ≤ d) (h3 : d ≤ t)
    (h4 : limit ≤ (approvedOn rs d).length)
    (h5 : ∀ d', s ≤ d' → d' < d → (approvedOn rs d').length < limit)
    (h6 : ∀ r ∈ approvedOn rs d, r.employee_name = e) :
    validate rs cs limit e s t = .dailyLimit d :=
  (validate_dailyLimit_iff h1).mpr ⟨h2, h3, h4, h5⟩

/-- Witness for `validate_counts_own_requests`: employee A's own approved
    request on day 0 fills a limit of 1, so A's new submission covering day 0
    is rejected for the daily limit. -/
theorem validate_counts_own_requests_witness :
    validate [⟨"A", 0, 0, .fullDay, .approved, 0⟩] [] 1 "A" 0 0 = .dailyLimit 0 :=
  validate_counts_own_requests [⟨"A", 0, 0, .fullDay, .approved, 0⟩] [] 1 "A" 0 0 0
    (by decide) (by decide) (by decide) (by decide)
    (fun d' ha hb => by omega) (by decide)

/-! ## C4: the approve step does not re-check the daily cap -/

/-- C4 counterexample: with daily limit 2 and no constraints, three employees
    submit for the same day while all three requests are still pending (the
    checks scan only approved rows, so every submission validates), and the
    administrator then approves all three — each approve button merely sets
    the row's status with no re-check.  The reached state has three approved
    requests covering day 0, exceeding the limit of 2 that was in force the
    whole time. -/
theorem approve_can_exceed_daily_limit_cex :
    Reachable ⟨[], [], 2⟩
      ⟨[⟨"A", 0, 0, .fullDay, .approved, 0⟩,
        ⟨"B", 0, 0, .fullDay, .approved, 0⟩,
        ⟨"D", 0, 0, .fullDay, .approved, 0⟩], [], 2⟩
    ∧ 2 < (approvedOn
        [⟨"A", 0, 0, .fullDay, .approved, 0⟩,
         ⟨"B", 0, 0, .fullDay, .approved, 0⟩,
         ⟨"D", 0, 0, .fullDay, .approved, 0⟩] 0).length
    ∧ ∃ r ∈ [⟨"A", 0, 0, .fullDay, .approved, 0⟩,
         ⟨"B", 0, 0, .fullDay, .approved, 0⟩,
         (⟨"D", 0, 0, .fullDay, .approved, 0⟩ : VacationRequest)],
        r.status = .approved ∧ r.start_date ≤ 0 ∧ 0 ≤ r.end_date := by
  refine ⟨?_, by decide, by decide⟩
  have s1 : Step (⟨[], [], 2⟩ : SystemState)
      ⟨[⟨"A", 0, 0, .fullDay, .pending, 0⟩], [], 2⟩ :=
    Step.submitStep "A" 0 0 .fullDay 0 (by decide)
  have s2 : Step (⟨[⟨"A", 0, 0, .fullDay, .pending, 0⟩], [], 2⟩ : SystemState)
      ⟨[⟨"A", 0, 0, .fullDay, .pending, 0⟩,
        ⟨"B", 0, 0, .fullDay, .pending, 0⟩], [], 2⟩ :=
    Step.submitStep "B" 0 0 .fullDay 0 (by decide)
  have s3 : Step (⟨[⟨"A", 0, 0, .fullDay, .pending, 0⟩,
        ⟨"B", 0, 0, .fullDay, .pending, 0⟩], [], 2⟩ : SystemState)
      ⟨[⟨"A", 0, 0, .fullDay, .pending, 0⟩,
        ⟨"B", 0, 0, .fullDay, .pending, 0⟩,
        ⟨"D", 0, 0, .fullDay, .pending, 0⟩], [], 2⟩ :=
    Step.submitStep "D" 0 0 .fullDay 0 (by decide)
  have s4 : Step (⟨[⟨"A", 0, 0, .fullDay, .pending, 0⟩,
        ⟨"B", 0, 0, .fullDay, .pending, 0⟩,
        ⟨"D", 0, 0, .fullDay, .pending, 0⟩], [], 2⟩ : SystemState)
      ⟨[⟨"A", 0, 0, .fullDay, .approved, 0⟩,
        ⟨"B", 0, 0, .fullDay, .pending, 0⟩,
        ⟨"D", 0, 0, .fullDay, .pending, 0⟩], [], 2⟩ :=
    Step.decideStep 0 true (by decide) rfl
  have s5 : Step (⟨[⟨"A", 0, 0, .fullDay, .approved, 0⟩,
        ⟨"B", 0, 0, .fullDay, .pending, 0⟩,
        ⟨"D", 0, 0, .fullDay, .pending, 0⟩], [], 2⟩ : SystemState)
      ⟨[⟨"A", 0, 0, .fullDay, .approved, 0⟩,
        ⟨"B", 0, 0, .fullDay, .approved, 0⟩,
        ⟨"D", 0, 0, .fullDay, .pending, 0⟩], [], 2⟩ :=
    Step.decideStep 1 true (by decide) rfl
  have s6 : Step (⟨[⟨"A", 0, 0, .fullDay, .approved, 0⟩,
        ⟨"B", 0, 0, .fullDay, .approved, 0⟩,
        ⟨"D", 0, 0, .fullDay, .pending, 0⟩], [], 2⟩ : SystemState)
      ⟨[⟨"A", 0, 0, .fullDay, .approved, 0⟩,
        ⟨"B", 0, 0, .fullDay, .approved, 0⟩,
        ⟨"D", 0, 0, .fullDay, .approved, 0⟩], [], 2⟩ :=
    Step.decideStep 2 true (by decide) rfl
  exact Reachable.tail (Reachable.tail (Reachable.tail (Reachable.tail
    (Reachable.tail (Reachable.tail (Reachable.refl _) s1) s2) s3) s4) s5) s6

/-- **C4** (amended): submission-time validation guarantees that, at the
    moment of a successful submission, the approved headcount on every day of
    the submitted range is strictly below the daily limit; the decide/approve
    step performs no such check, so approving several pending requests for the
    same day can push the approved count past the limit in reachable states
    (see the counterexample). -/
theorem validate_ok_headcount_below_limit (rs : List VacationRequest)
    (cs : List ExclusionConstraint) (limit : Nat) (e : String) (s t d : Int)
    (h : validate rs cs limit e s t = .ok) (h2 : s ≤ d) (h3 : d ≤ t) :
    (approvedOn rs d).length < limit :=
  (((validate_ok_iff (le_trans h2 h3)).mp h) d h2 h3).1

/-- Witness for `validate_ok_headcount_below_limit`: one approved request on
    day 0 with limit 2 lets a new one-day submission pass, and the approved
    headcount on day 0 is below the limit. -/
theorem validate_ok_headcount_below_limit_witness :
    (approvedOn [⟨"A", 0, 0, .fullDay, .approved, 0⟩] 0).length < 2 :=
  validate_ok_headcount_below_limit [⟨"A", 0, 0, .fullDay, .approved, 0⟩] [] 2 "B" 0 0 0
    (by decide) (by decide) (by decide)

/-! ## C7: the per-request state machine -/

/-- **C7** (confirmed): every step of the system either leaves a row intact or
    changes exactly one pending row's status to approved or rejected, keeping
    all other fields; in particular a row whose status is already approved or
    rejected is never modified by any operation (decisions are offered only
    for pending rows). -/
theorem request_state_machine {σ τ : SystemState} (hstep : Step σ τ) :
    (∀ (i : Nat) (h : i < σ.vacations.length),
        (σ.vacations.get ⟨i, h⟩).status ≠ .pending →
        ∃ h' : i < τ.vacations.length,
          τ.vacations.get ⟨i, h'⟩ = σ.vacations.get ⟨i, h⟩)
    ∧ (∀ (i : Nat) (h : i < σ.vacations.length) (h' : i < τ.vacations.length),
        τ.vacations.get ⟨i, h'⟩ = σ.vacations.get ⟨i, h⟩
        ∨ ((σ.vacations.get ⟨i, h⟩).status = .pending
            ∧ ((τ.vacations.get ⟨i, h'⟩).status = .approved
                ∨ (τ.vacations.get ⟨i, h'⟩).status = .rejected)
            ∧ τ.vacations.get ⟨i, h'⟩
                = setStatus (σ.vacations.get ⟨i, h⟩) (τ.vacations.get ⟨i, h'⟩).status)) := by
  cases hstep with
  | submitStep e s t lt now hv =>
    constructor
    · intro i h hd
      refine ⟨by simp only [List.length_append]; omega, ?_⟩
      exact List.get_append i h
    · intro i h h'
      exact Or.inl (List.get_append i h)
  | decideStep j b hj hp =>
    constructor
    · intro i h hd
      have hij : j ≠ i := by
        intro hji
        subst hji
        exact hd hp
      refine ⟨by simp only [List.length_set]; exact h, ?_⟩
      exact List.get_set_ne hij _
    · intro i h h'
      by_cases hij : j = i
      · subst hij
        right
        rw [List.get_set_eq]
        cases b with
        | true => exact ⟨hp, Or.inl rfl, rfl⟩
        | false => exact ⟨hp, Or.inr rfl, rfl⟩
      · exact Or.inl (List.get_set_ne hij _)

/-- Witness for `request_state_machine` at a concrete decide step: row 0 is
    already approved, row 1 is pending and gets approved; row 0 survives
    unchanged. -/
theorem request_state_machine_witness :
    (∀ (i : Nat) (h : i < (SystemState.mk
          [⟨"A", 0, 0, .fullDay, .approved, 0⟩, ⟨"B", 2, 3, .fullDay, .pending, 1⟩]
          [] 5).vacations.length),
        ((SystemState.mk
          [⟨"A", 0, 0, .fullDay, .approved, 0⟩, ⟨"B", 2, 3, .fullDay, .pending, 1⟩]
          [] 5).vacations.get ⟨i, h⟩).status ≠ .pending →
        ∃ h' : i < (SystemState.mk
          [⟨"A", 0, 0, .fullDay, .approved, 0⟩, ⟨"B", 2, 3, .fullDay, .approved, 1⟩]
          [] 5).vacations.length,
          (SystemState.mk
            [⟨"A", 0, 0, .fullDay, .approved, 0⟩, ⟨"B", 2, 3, .fullDay, .approved, 1⟩]
            [] 5).vacations.get ⟨i, h'⟩
            = (SystemState.mk
                [⟨"A", 0, 0, .fullDay, .approved, 0⟩, ⟨"B", 2, 3, .fullDay, .pending, 1⟩]
                [] 5).vacations.get ⟨i, h⟩)
    ∧ (∀ (i : Nat) (h : i < (SystemState.mk
          [⟨"A", 0, 0, .fullDay, .approved, 0⟩, ⟨"B", 2, 3, .fullDay, .pending, 1⟩]
          [] 5).vacations.length)
        (h' : i < (SystemState.mk
          [⟨"A", 0, 0, .fullDay, .approved, 0⟩, ⟨"B", 2, 3, .fullDay, .approved, 1⟩]
          [] 5).vacations.length),
        (SystemState.mk
          [⟨"A", 0, 0, .fullDay, .approved, 0⟩, ⟨"B", 2, 3, .fullDay, .approved, 1⟩]
          [] 5).vacations.get ⟨i, h'⟩
          = (SystemState.mk
              [⟨"A", 0, 0, .fullDay, .approved, 0⟩, ⟨"B", 2, 3, .fullDay, .pending, 1⟩]
              [] 5).vacations.get ⟨i, h⟩
        ∨ (((SystemState.mk
              [⟨"A", 0, 0, .fullDay, .approved, 0⟩, ⟨"B", 2, 3, .fullDay, .pending, 1⟩]
              [] 5).vacations.get ⟨i, h⟩).status = .pending
            ∧ (((SystemState.mk
                [⟨"A", 0, 0, .fullDay, .approved, 0⟩, ⟨"B", 2, 3, .fullDay, .approved, 1⟩]
                [] 5).vacations.get ⟨i, h'⟩).status = .approved
                ∨ ((SystemState.mk
                  [⟨"A", 0, 0, .fullDay, .approved, 0⟩, ⟨"B", 2, 3, .fullDay, .approved, 1⟩]
                  [] 5).vacations.get ⟨i, h'⟩).status = .rejected)
            ∧ (SystemState.mk
                [⟨"A", 0, 0, .fullDay, .approved, 0⟩, ⟨"B", 2, 3, .fullDay, .approved, 1⟩]
                [] 5).vacations.get ⟨i, h'⟩
                = setStatus ((SystemState.mk
                    [⟨"A", 0, 0, .fullDay, .approved, 0⟩, ⟨"B", 2, 3, .fullDay, .pending, 1⟩]
                    [] 5).vacations.get ⟨i, h⟩)
                  ((SystemState.mk
                    [⟨"A", 0, 0, .fullDay, .approved, 0⟩, ⟨"B", 2, 3, .fullDay, .approved, 1⟩]
                    [] 5).vacations.get ⟨i, h'⟩).status)) :=
  request_state_machine (Step.decideStep 1 true (by decide) rfl)

/-! ## C9: no idempotence on submission -/

lemma filter_approved_append_pending (rs : List VacationRequest)
    (e : String) (s t : Int) (lt : LeaveType) (now : Int) :
    (rs ++ [mkRequest e s t lt now]).filter (fun r => r.status == Status.approved)
      = rs.filter (fun r => r.status == Status.approved) := by
  rw [List.filter_append, List.filter_cons_of_neg]
  · rw [List.filter_nil, List.append_nil]
  · simp [mkRequest]

/-- **C9** (confirmed): submitting the same payload twice in succession
    against an unconflicted store is possible whenever the first submission
    validates — the appended row is pending, and pending rows never block
    validation — and it grows the collection by exactly one row per submit:
    the final collection is the original plus two pending rows, one per
    submission. -/
theorem submit_twice_two_pending (σ : SystemState) (e : String) (s t : Int)
    (lt : LeaveType) (now now' : Int)
    (h : validate σ.vacations σ.constraints σ.daily_limit e s t = .ok) :
    validate (σ.vacations ++ [mkRequest e s t lt now]) σ.constraints σ.daily_limit e s t
      = .ok
    ∧ Reachable σ ⟨σ.vacations ++ [mkRequest e s t lt now] ++ [mkRequest e s t lt now'],
        σ.constraints, σ.daily_limit⟩
    ∧ (σ.vacations ++ [mkRequest e s t lt now]).length = σ.vacations.length + 1
    ∧ (σ.vacations ++ [mkRequest e s t lt now] ++ [mkRequest e s t lt now']).length
        = σ.vacations.length + 2
    ∧ (mkRequest e s t lt now).status = .pending
    ∧ (mkRequest e s t lt now').status = .pending := by
  have hpres : validate (σ.vacations ++ [mkRequest e s t lt now])
      σ.constraints σ.daily_limit e s t = .ok := by
    rw [validate_congr_approved (filter_approved_append_pending σ.vacations e s t lt now)]
    exact h
  refine ⟨hpres, ?_, by simp, by simp, rfl, rfl⟩
  have s1 : Step σ ⟨σ.vacations ++ [mkRequest e s t lt now],
      σ.constraints, σ.daily_limit⟩ :=
    Step.submitStep e s t lt now h
  have s2 : Step (⟨σ.vacations ++ [mkRequest e s t lt now],
        σ.constraints, σ.daily_limit⟩ : SystemState)
      ⟨σ.vacations ++ [mkRequest e s t lt now] ++ [mkRequest e s t lt now'],
        σ.constraints, σ.daily_limit⟩ :=
    Step.submitStep e s t lt now' hpres
  exact Reachable.tail (Reachable.tail (Reachable.refl σ) s1) s2

/-- Witness for `submit_twice_two_pending`: starting from an empty store with
    limit 5, employee A submits days 2-3 twice; both rows are pending and the
    collection grows from 0 to 2 rows. -/
theorem submit_twice_two_pending_witness :
    validate ([] ++ [mkRequest "A" 2 3 .fullDay 7]) [] 5 "A" 2 3 = .ok
    ∧ Reachable ⟨[], [], 5⟩
        ⟨[] ++ [mkRequest "A" 2 3 .fullDay 7] ++ [mkRequest "A" 2 3 .fullDay 8], [], 5⟩
    ∧ (([] : List VacationRequest) ++ [mkRequest "A" 2 3 .fullDay 7]).length = 0 + 1
    ∧ (([] : List VacationRequest) ++ [mkRequest "A" 2 3 .fullDay 7]
        ++ [mkRequest "A" 2 3 .fullDay 8]).length = 0 + 2
    ∧ (mkRequest "A" 2 3 .fullDay 7).status = .pending
    ∧ (mkRequest "A" 2 3 .fullDay 8).status = .pending := by
  have h := submit_twice_two_pending ⟨[], [], 5⟩ "A" 2 3 .fullDay 7 8 (by decide)
  exact h
